import Mathlib

/-!
Verification of the beetle storage module (`src/storage.rs`).

The module has two parts:

* a generic bounded `Cache` keyed by piece index, with timestamps and a
  batch eviction routine `purge` that drops the third of the records with
  the smallest timestamps, and
* a `StorageHandler` that validates a base directory at construction and
  stores/retrieves piece files `<index>.piece`, populating the cache on
  retrieval.

The embedding below mirrors the Rust source.  Machine integers (`u32`
keys, `u64` timestamps, `usize` sizes) are modelled as `Nat`: the module
performs no arithmetic on them that could overflow (the only arithmetic is
`len * 1 / 3`, which cannot exceed its input).  The system clock read by
`_calculate_timestamp` is modelled by passing the current timestamp as an
explicit argument to every operation that reads the clock.  File contents
(`Vec<u8>`) are modelled as `List Nat`, and the pieces directory as an
association list from piece index to file contents; filesystem writes are
assumed to succeed, and opening a file fails exactly when the file is
absent, which is the error behaviour the claims are about.
-/

/-- A cache record (`CacheRecord<T>`, src/storage.rs lines 118-132):
key, payload and timestamp of last insertion or access. -/
structure CacheRecord (T : Type) where
  key : Nat
  item : T
  timestamp : Nat
deriving DecidableEq, Repr

/-- The bounded cache (`Cache<T>`, src/storage.rs lines 135-138).  The Rust
`HashMap<u32, CacheRecord<T>>` is modelled as a list of records; reachable
states keep at most one record per key because insertion removes the old
record for the key. -/
structure Cache (T : Type) where
  max_size : Nat
  records : List (CacheRecord T)
deriving DecidableEq, Repr

/-- `Cache::new` (src/storage.rs lines 141-146): empty cache of the given
capacity. -/
def Cache.new {T : Type} (max_size : Nat) : Cache T :=
  ⟨max_size, []⟩

/-- The ordering used by `purge`'s `sort_by_key(|record| record.timestamp)`. -/
def tsLE {T : Type} (a b : CacheRecord T) : Prop :=
  a.timestamp ≤ b.timestamp

instance {T : Type} : DecidableRel (@tsLE T) :=
  fun a b => Nat.decLe a.timestamp b.timestamp

instance {T : Type} : IsTotal (CacheRecord T) tsLE :=
  ⟨fun a b => Nat.le_total a.timestamp b.timestamp⟩

instance {T : Type} : IsTrans (CacheRecord T) tsLE :=
  ⟨fun _ _ _ h1 h2 => Nat.le_trans h1 h2⟩

/-- `Cache::purge` (src/storage.rs lines 169-189): sort the records by
timestamp, take the first `len * 1 / 3` of them, and remove their keys
from the map. -/
def Cache.purge {T : Type} (c : Cache T) : Cache T :=
  let to_remove_count := c.records.length * 1 / 3
  let sorted_records := List.insertionSort tsLE c.records
  let keys_to_remove := (sorted_records.take to_remove_count).map (fun r => r.key)
  ⟨c.max_size, c.records.filter (fun r => decide (r.key ∉ keys_to_remove))⟩

/-- `Cache::put` (src/storage.rs lines 148-156): purge first when the size
has reached capacity, then insert the record under `key` with the current
timestamp (`HashMap::insert` replaces any existing record for the key,
modelled by filtering the key out before appending). -/
def Cache.put {T : Type} (c : Cache T) (key : Nat) (data : T) (ts : Nat) : Cache T :=
  let c1 := if c.records.length ≥ c.max_size then c.purge else c
  ⟨c1.max_size, c1.records.filter (fun r => decide (r.key ≠ key)) ++ [⟨key, data, ts⟩]⟩

/-- Refresh the timestamp of the first record with the given key
(`records.get_mut(&key)` followed by `record.timestamp = ts`). -/
def updateTimestamp {T : Type} (key ts : Nat) : List (CacheRecord T) → List (CacheRecord T)
  | [] => []
  | r :: rs =>
    if r.key = key then ⟨r.key, r.item, ts⟩ :: rs
    else r :: updateTimestamp key ts rs

/-- `Cache::get` (src/storage.rs lines 158-167): on a miss return `none`
and leave the cache untouched; on a hit refresh the record's timestamp to
the current time and return a clone of the payload. -/
def Cache.get {T : Type} (c : Cache T) (key : Nat) (ts : Nat) : Option T × Cache T :=
  match c.records.find? (fun r => decide (r.key = key)) with
  | none => (none, c)
  | some r => (some r.item, ⟨c.max_size, updateTimestamp key ts c.records⟩)

/-- `StorageError` (src/storage.rs lines 12-17).  The payload of `IOError`
(an `io::Error`) carries no information the claims depend on. -/
inductive StorageError where
  | IOError : StorageError
  | PathError : String → StorageError
  | PermissionError : String → StorageError
deriving DecidableEq, Repr

/-- The pieces directory `<base>/.pieces`: piece files `<index>.piece`
modelled as an association list from piece index to file bytes.  `u32`
formatting is injective, so distinct indices name distinct files. -/
def PiecesDir : Type := List (Nat × List Nat)

instance : DecidableEq PiecesDir := by
  unfold PiecesDir
  infer_instance

/-- `StorageHandler` (src/storage.rs lines 27-31).  The two path fields are
construction-time constants determined by the base path; only the cache is
mutable state, so it is the state we carry. -/
structure StorageHandler where
  cache : Cache (List Nat)
deriving DecidableEq

/-- Open and fully read the file `<piece_index>.piece`: `File::open` fails
(with an `io::Error`) exactly when the file is absent. -/
def lookup_piece_file (fs : PiecesDir) (piece_index : Nat) : Option (List Nat) :=
  (fs.find? (fun p => decide (p.1 = piece_index))).map (fun p => p.2)

/-- `File::create` then `write_all`: create the file `<piece_index>.piece`,
truncating any previous contents, and write the data in full. -/
def write_piece_file (fs : PiecesDir) (piece_index : Nat) (data : List Nat) : PiecesDir :=
  (piece_index, data) :: List.filter (fun p => decide (p.1 ≠ piece_index)) fs

/-- `StorageHandler::store_piece` (src/storage.rs lines 70-75): write the
piece file; the handler (`&self`, hence in particular the cache) is
untouched. -/
def StorageHandler.store_piece (fs : PiecesDir) (h : StorageHandler)
    (piece_index : Nat) (piece_data : List Nat) :
    PiecesDir × StorageHandler × Except StorageError Unit :=
  (write_piece_file fs piece_index piece_data, h, Except.ok ())

/-- `StorageHandler::retrieve_piece` (src/storage.rs lines 78-86): open and
read the piece file (propagating the IO error when it is absent), put the
contents into the cache under the piece index, and return them. -/
def StorageHandler.retrieve_piece (fs : PiecesDir) (h : StorageHandler)
    (piece_index : Nat) (ts : Nat) :
    PiecesDir × StorageHandler × Except StorageError (List Nat) :=
  match lookup_piece_file fs piece_index with
  | none => (fs, h, Except.error StorageError.IOError)
  | some file_content =>
    (fs, ⟨h.cache.put piece_index file_content ts⟩, Except.ok file_content)

/-- The filesystem facts `StorageHandler::create` consults about the base
path and the `.pieces` path, gathered as one environment value: whether
each path exists and is a directory, whether `stat` on the base path
succeeds, and the owner uid of the base path against the current uid. -/
structure CreateEnv where
  base_exists : Bool
  base_is_dir : Bool
  stat_ok : Bool
  base_owner_uid : Nat
  current_uid : Nat
  pieces_exists : Bool
  pieces_is_dir : Bool
deriving DecidableEq, Repr

/-- `_check_if_owner` (src/storage.rs lines 96-115): `stat` the path; on
success compare the file's owner uid with the current uid, on failure
raise a `PathError`. -/
def _check_if_owner (env : CreateEnv) : Except StorageError Bool :=
  if env.stat_ok then Except.ok (env.base_owner_uid == env.current_uid)
  else Except.error (StorageError.PathError "Failed to get stat for path")

/-- `StorageHandler::create` (src/storage.rs lines 34-68): validate the
base path (structure then ownership then the `.pieces` entry), creating
missing directories, and construct the handler with an empty cache. -/
def StorageHandler.create (env : CreateEnv) (cache_size : Nat) :
    Except StorageError StorageHandler :=
  if env.base_exists then
    if !env.base_is_dir then
      Except.error (StorageError.PathError "Provided path exists and is not directory")
    else
      match _check_if_owner env with
      | Except.error e => Except.error e
      | Except.ok is_owner =>
        if !is_owner then
          Except.error
            (StorageError.PermissionError "Current user not owner of directory at given path")
        else if env.pieces_exists then
          if !env.pieces_is_dir then
            Except.error (StorageError.PathError "Invalid pieces path inside of provided path")
          else Except.ok ⟨Cache.new cache_size⟩
        else Except.ok ⟨Cache.new cache_size⟩
  else Except.ok ⟨Cache.new cache_size⟩

/-- Run a sequence of `put` operations (key, payload, timestamp). -/
def applyPuts {T : Type} (c : Cache T) : List (Nat × T × Nat) → Cache T
  | [] => c
  | (k, v, ts) :: rest => applyPuts (c.put k v ts) rest

/-- A cache operation: a `put` with key, payload and timestamp, or a `get`
with key and timestamp. -/
inductive CacheOp (T : Type) where
  | put : Nat → T → Nat → CacheOp T
  | get : Nat → Nat → CacheOp T
deriving DecidableEq

/-- Run a sequence of cache operations. -/
def applyOps {T : Type} (c : Cache T) : List (CacheOp T) → Cache T
  | [] => c
  | CacheOp.put k v ts :: rest => applyOps (c.put k v ts) rest
  | CacheOp.get k ts :: rest => applyOps (c.get k ts).2 rest

/-- Number of records of `c` with a strictly smaller timestamp than `r`:
the recency rank that `purge` sorts by. -/
def tsRank {T : Type} (c : Cache T) (r : CacheRecord T) : Nat :=
  (c.records.filter (fun x => decide (x.timestamp < r.timestamp))).length

/-- The concrete scenario of the spec's cache-bound property (mirroring the
`test_cache` test): capacity 7, keys 1..7 inserted at strictly increasing
timestamps 1..7 with payloads the squares, key 1 touched via `get` at
timestamp 8, then key 8 inserted at timestamp 9. -/
def c3Scenario : Cache Nat :=
  applyOps (Cache.new 7)
    [CacheOp.put 1 1 1, CacheOp.put 2 4 2, CacheOp.put 3 9 3, CacheOp.put 4 16 4,
     CacheOp.put 5 25 5, CacheOp.put 6 36 6, CacheOp.put 7 49 7,
     CacheOp.get 1 8, CacheOp.put 8 64 9]

/-- C1: storing a piece at an index and then retrieving that index on the
resulting store succeeds and returns exactly the stored bytes. -/
theorem c1_store_then_retrieve_roundtrip (fs : PiecesDir) (h : StorageHandler)
    (i : Nat) (B : List Nat) (ts : Nat) :
    (StorageHandler.store_piece fs h i B).2.2 = Except.ok () ∧
    (StorageHandler.retrieve_piece (StorageHandler.store_piece fs h i B).1
        (StorageHandler.store_piece fs h i B).2.1 i ts).2.2 = Except.ok B := by
  refine ⟨rfl, ?_⟩
  simp [StorageHandler.store_piece, StorageHandler.retrieve_piece,
    lookup_piece_file, write_piece_file]

/-- C7: retrieving an index whose piece file does not exist fails with
`IOError` and leaves both the filesystem and the handler (in particular
the cache) unchanged. -/
theorem c7_retrieve_missing_io_error (fs : PiecesDir) (h : StorageHandler) (i ts : Nat)
    (hmiss : lookup_piece_file fs i = none) :
    StorageHandler.retrieve_piece fs h i ts = (fs, h, Except.error StorageError.IOError) := by
  simp [StorageHandler.retrieve_piece, hmiss]

/-- Witness for C7 at the empty pieces directory and index 0. -/
theorem c7_retrieve_missing_io_error_witness :
    lookup_piece_file [] 0 = none ∧
    StorageHandler.retrieve_piece [] ⟨Cache.new 5⟩ 0 0 =
      ([], ⟨Cache.new 5⟩, Except.error StorageError.IOError) :=
  ⟨rfl, c7_retrieve_missing_io_error [] ⟨Cache.new 5⟩ 0 0 rfl⟩

/-- C8: `store_piece` succeeds, the piece file afterwards holds exactly the
written bytes (overwriting whatever was there), every other piece file is
untouched, and the handler — hence the cache — is returned unchanged. -/
theorem c8_store_piece_writes_file_cache_untouched (fs : PiecesDir) (h : StorageHandler)
    (i : Nat) (B : List Nat) :
    (StorageHandler.store_piece fs h i B).2.2 = Except.ok () ∧
    lookup_piece_file (StorageHandler.store_piece fs h i B).1 i = some B ∧
    (∀ j, j ≠ i →
      lookup_piece_file (StorageHandler.store_piece fs h i B).1 j = lookup_piece_file fs j) ∧
    (StorageHandler.store_piece fs h i B).2.1 = h := by
  refine ⟨rfl, ?_, ?_, rfl⟩
  · simp [StorageHandler.store_piece, lookup_piece_file, write_piece_file]
  · intro j hj
    simp only [StorageHandler.store_piece, lookup_piece_file, write_piece_file]
    rw [List.find?_cons_of_neg _ (by simpa using Ne.symm hj), List.find?_filter]
    induction fs with
    | nil => rfl
    | cons a t ih =>
      by_cases hpj : a.1 = j
      · rw [List.find?_cons_of_pos _ (by simp [hpj, hj]), List.find?_cons_of_pos _ (by simp [hpj])]
      · rw [List.find?_cons_of_neg _ (by simp [hpj]), List.find?_cons_of_neg _ (by simp [hpj])]
        exact ih

/-- Witness for C8's inner hypothesis (`j ≠ i`): store at index 1, look up
index 0. -/
theorem c8_store_piece_writes_file_cache_untouched_witness :
    lookup_piece_file (StorageHandler.store_piece [] ⟨Cache.new 5⟩ 1 [7]).1 0 =
      lookup_piece_file [] 0 :=
  (c8_store_piece_writes_file_cache_untouched [] ⟨Cache.new 5⟩ 1 [7]).2.2.1 0 (by decide)

/-- C5: `create` on a pre-existing base directory whose owner uid differs
from the current uid (with `stat` succeeding, as it does for an existing
readable path) fails with `PermissionError`, so no store is constructed. -/
theorem c5_create_not_owner_permission_error (env : CreateEnv) (n : Nat)
    (h1 : env.base_exists = true) (h2 : env.base_is_dir = true)
    (h3 : env.stat_ok = true) (h4 : env.base_owner_uid ≠ env.current_uid) :
    StorageHandler.create env n =
      Except.error
        (StorageError.PermissionError "Current user not owner of directory at given path") := by
  simp [StorageHandler.create, _check_if_owner, h1, h2, h3, h4]

/-- Witness for C5: an existing directory owned by uid 0 while the current
uid is 1000. -/
theorem c5_create_not_owner_permission_error_witness :
    StorageHandler.create ⟨true, true, true, 0, 1000, false, false⟩ 5 =
      Except.error
        (StorageError.PermissionError "Current user not owner of directory at given path") :=
  c5_create_not_owner_permission_error ⟨true, true, true, 0, 1000, false, false⟩ 5
    rfl rfl rfl (by decide)

/-- C6: `create` fails with `PathError` both when the base path exists and
is not a directory, and when an owned base directory has a `.pieces` entry
that is not a directory. -/
theorem c6_create_path_errors (env env2 : CreateEnv) (n : Nat) :
    (env.base_exists = true → env.base_is_dir = false →
      StorageHandler.create env n =
        Except.error (StorageError.PathError "Provided path exists and is not directory")) ∧
    (env2.base_exists = true → env2.base_is_dir = true → env2.stat_ok = true →
      env2.base_owner_uid = env2.current_uid →
      env2.pieces_exists = true → env2.pieces_is_dir = false →
      StorageHandler.create env2 n =
        Except.error (StorageError.PathError "Invalid pieces path inside of provided path")) := by
  constructor
  · intro h1 h2
    simp [StorageHandler.create, h1, h2]
  · intro h1 h2 h3 h4 h5 h6
    simp [StorageHandler.create, _check_if_owner, h1, h2, h3, h4, h5, h6]

/-- Witness for C6: a base path that is a regular file, and an owned base
directory whose `.pieces` entry is a regular file. -/
theorem c6_create_path_errors_witness :
    StorageHandler.create ⟨true, false, true, 0, 0, false, false⟩ 5 =
      Except.error (StorageError.PathError "Provided path exists and is not directory") ∧
    StorageHandler.create ⟨true, true, true, 0, 0, true, false⟩ 5 =
      Except.error (StorageError.PathError "Invalid pieces path inside of provided path") :=
  ⟨(c6_create_path_errors ⟨true, false, true, 0, 0, false, false⟩
      ⟨true, true, true, 0, 0, true, false⟩ 5).1 rfl rfl,
   (c6_create_path_errors ⟨true, false, true, 0, 0, false, false⟩
      ⟨true, true, true, 0, 0, true, false⟩ 5).2 rfl rfl rfl rfl rfl rfl⟩

theorem length_updateTimestamp {T : Type} (key ts : Nat) (l : List (CacheRecord T)) :
    (updateTimestamp key ts l).length = l.length := by
  induction l with
  | nil => rfl
  | cons r rs ih =>
    unfold updateTimestamp
    by_cases h : r.key = key <;> simp [h, ih]

theorem mem_updateTimestamp_of_key_ne {T : Type} {key ts : Nat} {l : List (CacheRecord T)}
    {r2 : CacheRecord T} (hmem : r2 ∈ l) (hne : r2.key ≠ key) :
    r2 ∈ updateTimestamp key ts l := by
  induction l with
  | nil => exact absurd hmem (List.not_mem_nil r2)
  | cons r rs ih =>
    unfold updateTimestamp
    by_cases h : r.key = key
    · rw [if_pos h]
      rcases List.mem_cons.mp hmem with h1 | h1
      · exact absurd (h1 ▸ h) hne
      · exact List.mem_cons_of_mem _ h1
    · rw [if_neg h]
      rcases List.mem_cons.mp hmem with h1 | h1
      · exact h1 ▸ List.mem_cons_self _ _
      · exact List.mem_cons_of_mem _ (ih h1)

theorem updateTimestamp_of_find? {T : Type} {key ts : Nat} {l : List (CacheRecord T)}
    {r : CacheRecord T} (hf : l.find? (fun x => decide (x.key = key)) = some r) :
    CacheRecord.mk r.key r.item ts ∈ updateTimestamp key ts l ∧
    ∀ r2 ∈ updateTimestamp key ts l, r2 ∈ l ∨ r2 = CacheRecord.mk r.key r.item ts := by
  induction l with
  | nil => simp at hf
  | cons a rs ih =>
    by_cases h : a.key = key
    · rw [List.find?_cons_of_pos _ (by simp [h])] at hf
      injection hf with hf
      subst hf
      unfold updateTimestamp
      rw [if_pos h]
      refine ⟨List.mem_cons_self _ _, ?_⟩
      intro r2 h2
      rcases List.mem_cons.mp h2 with h3 | h3
      · exact Or.inr h3
      · exact Or.inl (List.mem_cons_of_mem _ h3)
    · rw [List.find?_cons_of_neg _ (by simp [h])] at hf
      unfold updateTimestamp
      rw [if_neg h]
      obtain ⟨ih1, ih2⟩ := ih hf
      refine ⟨List.mem_cons_of_mem _ ih1, ?_⟩
      intro r2 h2
      rcases List.mem_cons.mp h2 with h3 | h3
      · exact Or.inl (h3 ▸ List.mem_cons_self a rs)
      · rcases ih2 r2 h3 with h4 | h4
        · exact Or.inl (List.mem_cons_of_mem _ h4)
        · exact Or.inr h4

/-- C4: on a hit, `get` returns the stored payload and only refreshes that
record's timestamp to the current time — the capacity is unchanged, no
record is removed (the record count is preserved and every record for
another key survives unchanged), and nothing other than the touched record
appears; on a miss, `get` returns `none` and the cache is completely
unchanged.  In neither case does `get` evict. -/
theorem c4_get_hit_refreshes_miss_unchanged {T : Type} (c : Cache T) (k ts : Nat) :
    (c.records.find? (fun r => decide (r.key = k)) = none → c.get k ts = (none, c)) ∧
    (∀ r, c.records.find? (fun r => decide (r.key = k)) = some r →
      (c.get k ts).1 = some r.item ∧
      (c.get k ts).2.max_size = c.max_size ∧
      (c.get k ts).2.records.length = c.records.length ∧
      CacheRecord.mk r.key r.item ts ∈ (c.get k ts).2.records ∧
      (∀ r2 ∈ c.records, r2.key ≠ k → r2 ∈ (c.get k ts).2.records) ∧
      (∀ r2 ∈ (c.get k ts).2.records, r2 ∈ c.records ∨ r2 = CacheRecord.mk r.key r.item ts)) := by
  constructor
  · intro hf
    simp [Cache.get, hf]
  · intro r hf
    have hget : c.get k ts = (some r.item, ⟨c.max_size, updateTimestamp k ts c.records⟩) := by
      simp [Cache.get, hf]
    rw [hget]
    exact ⟨rfl, rfl, length_updateTimestamp k ts c.records,
      (updateTimestamp_of_find? hf).1,
      fun r2 h2 hne => mem_updateTimestamp_of_key_ne h2 hne,
      (updateTimestamp_of_find? hf).2⟩

/-- Witness for C4: a one-record cache, missing key 2 and present key 1. -/
theorem c4_get_hit_refreshes_miss_unchanged_witness :
    (⟨5, [⟨1, 10, 0⟩]⟩ : Cache Nat).get 2 9 = (none, (⟨5, [⟨1, 10, 0⟩]⟩ : Cache Nat)) ∧
    ((⟨5, [⟨1, 10, 0⟩]⟩ : Cache Nat).get 1 9).1 = some 10 ∧
    CacheRecord.mk 1 10 9 ∈ ((⟨5, [⟨1, 10, 0⟩]⟩ : Cache Nat).get 1 9).2.records :=
  ⟨(c4_get_hit_refreshes_miss_unchanged (⟨5, [⟨1, 10, 0⟩]⟩ : Cache Nat) 2 9).1 rfl,
   ((c4_get_hit_refreshes_miss_unchanged (⟨5, [⟨1, 10, 0⟩]⟩ : Cache Nat) 1 9).2 ⟨1, 10, 0⟩ rfl).1,
   ((c4_get_hit_refreshes_miss_unchanged (⟨5, [⟨1, 10, 0⟩]⟩ : Cache Nat) 1 9).2
      ⟨1, 10, 0⟩ rfl).2.2.2.1⟩

theorem put_records_eq {T : Type} (c : Cache T) (k : Nat) (v : T) (ts : Nat) :
    (c.put k v ts).records =
      (if c.records.length ≥ c.max_size then c.purge else c).records.filter
        (fun r => decide (r.key ≠ k)) ++ [⟨k, v, ts⟩] := rfl

theorem purge_max_size {T : Type} (c : Cache T) : c.purge.max_size = c.max_size := rfl

theorem put_max_size {T : Type} (c : Cache T) (k : Nat) (v : T) (ts : Nat) :
    (c.put k v ts).max_size = c.max_size := by
  unfold Cache.put
  split <;> rfl

/-- C9: immediately after `put k v`, the cache holds a record for `k` with
payload `v` and the insertion timestamp (insertion happens after any
eviction, so this holds even when the purge dropped `k`'s old record), and
a `get k` issued directly afterwards returns `v`. -/
theorem c9_put_then_get_returns_value {T : Type} (c : Cache T) (k : Nat) (v : T)
    (ts ts2 : Nat) :
    CacheRecord.mk k v ts ∈ (c.put k v ts).records ∧
    ((c.put k v ts).get k ts2).1 = some v := by
  have hnone : (((if c.records.length ≥ c.max_size then c.purge else c).records.filter
      (fun r => decide (r.key ≠ k))).find? (fun r => decide (r.key = k))) = none := by
    rw [List.find?_eq_none]
    intro x hx
    have hx2 := (List.mem_filter.mp hx).2
    simp only [decide_eq_true_eq] at hx2 ⊢
    exact hx2
  constructor
  · rw [put_records_eq]
    exact List.mem_append_right _ (List.mem_singleton.mpr rfl)
  · have hfind : (c.put k v ts).records.find? (fun r => decide (r.key = k)) =
        some (⟨k, v, ts⟩ : CacheRecord T) := by
      rw [put_records_eq, List.find?_append, hnone]
      simp
    simp [Cache.get, hfind]

theorem purge_records_eq {T : Type} (c : Cache T) :
    c.purge.records = c.records.filter (fun r =>
      decide (r.key ∉ ((List.insertionSort tsLE c.records).take
        (c.records.length * 1 / 3)).map (fun r => r.key))) := rfl

theorem length_filter_add_length_filter_not {α : Type} (l : List α) (p : α → Bool) :
    (l.filter p).length + (l.filter (fun a => !(p a))).length = l.length := by
  induction l with
  | nil => rfl
  | cons a t ih =>
    cases h : p a with
    | true =>
      rw [List.filter_cons_of_pos h, List.filter_cons_of_neg (by simp [h]),
        List.length_cons, List.length_cons]
      omega
    | false =>
      rw [List.filter_cons_of_neg (by simp [h]), List.filter_cons_of_pos (by simp [h]),
        List.length_cons, List.length_cons]
      omega

/-- Each key listed for removal belongs to at least one record of the
sorted prefix, so the purge filter drops at least `to_remove_count`
records (when there are that many). -/
theorem purge_records_length_le {T : Type} (c : Cache T) :
    c.purge.records.length ≤ c.records.length - c.records.length * 1 / 3 := by
  rw [purge_records_eq]
  have hperm : List.Perm (List.insertionSort tsLE c.records) c.records :=
    List.perm_insertionSort tsLE c.records
  have hsub : List.Sublist ((List.insertionSort tsLE c.records).take
      (c.records.length * 1 / 3)) (List.insertionSort tsLE c.records) :=
    List.take_sublist _ _
  have hself : ((List.insertionSort tsLE c.records).take
        (c.records.length * 1 / 3)).filter (fun r =>
          decide (r.key ∈ ((List.insertionSort tsLE c.records).take
            (c.records.length * 1 / 3)).map (fun r => r.key))) =
      (List.insertionSort tsLE c.records).take (c.records.length * 1 / 3) := by
    rw [List.filter_eq_self]
    intro a ha
    exact decide_eq_true (List.mem_map_of_mem _ ha)
  have hlen1 : ((List.insertionSort tsLE c.records).take
      (c.records.length * 1 / 3)).length ≤
      ((List.insertionSort tsLE c.records).filter (fun r =>
        decide (r.key ∈ ((List.insertionSort tsLE c.records).take
          (c.records.length * 1 / 3)).map (fun r => r.key)))).length := by
    have h0 := (List.Sublist.filter (fun r =>
      decide (r.key ∈ ((List.insertionSort tsLE c.records).take
        (c.records.length * 1 / 3)).map (fun r => r.key))) hsub).length_le
    rw [hself] at h0
    exact h0
  have hlen2 : ((List.insertionSort tsLE c.records).filter (fun r =>
        decide (r.key ∈ ((List.insertionSort tsLE c.records).take
          (c.records.length * 1 / 3)).map (fun r => r.key)))).length =
      (c.records.filter (fun r =>
        decide (r.key ∈ ((List.insertionSort tsLE c.records).take
          (c.records.length * 1 / 3)).map (fun r => r.key)))).length :=
    (hperm.filter _).length_eq
  have htake : ((List.insertionSort tsLE c.records).take
      (c.records.length * 1 / 3)).length = c.records.length * 1 / 3 := by
    rw [List.length_take, hperm.length_eq]
    exact Nat.min_eq_left (by omega)
  have hsplit := length_filter_add_length_filter_not c.records (fun r =>
    decide (r.key ∈ ((List.insertionSort tsLE c.records).take
      (c.records.length * 1 / 3)).map (fun r => r.key)))
  have hnot : (c.records.filter (fun r =>
      decide (r.key ∉ ((List.insertionSort tsLE c.records).take
        (c.records.length * 1 / 3)).map (fun r => r.key)))) =
      (c.records.filter (fun r =>
        !(decide (r.key ∈ ((List.insertionSort tsLE c.records).take
          (c.records.length * 1 / 3)).map (fun r => r.key))))) := by
    simp only [decide_not]
  rw [hnot]
  omega

theorem put_records_length_le {T : Type} (c : Cache T) (k : Nat) (v : T) (ts : Nat)
    (hm : 3 ≤ c.max_size) (hlen : c.records.length ≤ c.max_size) :
    (c.put k v ts).records.length ≤ c.max_size := by
  rw [put_records_eq, List.length_append, List.length_singleton]
  by_cases h : c.records.length ≥ c.max_size
  · rw [if_pos h]
    have h1 := purge_records_length_le c
    have h2 := List.length_filter_le (fun r => decide (r.key ≠ k)) c.purge.records
    have hlen_eq : c.records.length = c.max_size := Nat.le_antisymm hlen h
    omega
  · rw [if_neg h]
    have h2 := List.length_filter_le (fun r => decide (r.key ≠ k)) c.records
    omega

theorem applyPuts_length_le {T : Type} (m : Nat) (hm : 3 ≤ m)
    (ops : List (Nat × T × Nat)) (c : Cache T)
    (hms : c.max_size = m) (hlen : c.records.length ≤ m) :
    (applyPuts c ops).records.length ≤ m ∧ (applyPuts c ops).max_size = m := by
  induction ops generalizing c with
  | nil => exact ⟨hlen, hms⟩
  | cons op rest ih =>
    obtain ⟨k, v, ts⟩ := op
    refine ih (c.put k v ts) (by rw [put_max_size, hms]) ?_
    have := put_records_length_le c k v ts (hms ▸ hm) (hms ▸ hlen)
    omega

/-- C2 (as claimed) is false at capacity 1: two puts of distinct keys from
the empty cache leave 2 records, exceeding `max_size = 1` (`purge` removes
`1 * 1 / 3 = 0` records, so eviction does not restore the bound). -/
theorem c2_counterexample_capacity_one :
    ¬ ((applyPuts (Cache.new 1 : Cache Nat) [(1, 0, 0), (2, 0, 1)]).records.length ≤
        (Cache.new 1 : Cache Nat).max_size) := by decide

/-- C2 (amended): for every capacity `max_size ≥ 3` and every sequence of
puts starting from the empty cache, the record count immediately after
each put is at most `max_size` — eviction before insertion restores the
bound whenever an insert would otherwise exceed capacity.  (For
`max_size ≤ 2` the claim fails, since `purge` then removes
`⌊size/3⌋ = 0` records.) -/
theorem c2_amended_size_le_max_size_of_capacity_ge_three {T : Type} (m : Nat) (hm : 3 ≤ m)
    (ops : List (Nat × T × Nat)) :
    (applyPuts (Cache.new m : Cache T) ops).records.length ≤ m :=
  (applyPuts_length_le m hm ops (Cache.new m) rfl (Nat.zero_le m)).1

/-- Witness for the amended C2 at capacity 3 with four puts. -/
theorem c2_amended_size_le_max_size_of_capacity_ge_three_witness :
    (3 : Nat) ≤ 3 ∧
    (applyPuts (Cache.new 3 : Cache Nat) [(1, 0, 0), (2, 0, 1), (3, 0, 2), (4, 0, 3)]).records.length ≤ 3 :=
  ⟨Nat.le_refl 3,
   c2_amended_size_le_max_size_of_capacity_ge_three 3 (Nat.le_refl 3)
     [(1, 0, 0), (2, 0, 1), (3, 0, 2), (4, 0, 3)]⟩

theorem put_records_length_le_max_three {T : Type} (c : Cache T) (k : Nat) (v : T) (ts : Nat)
    (hlen : c.records.length ≤ max c.max_size 3) :
    (c.put k v ts).records.length ≤ max c.max_size 3 := by
  rw [put_records_eq, List.length_append, List.length_singleton]
  by_cases h : c.records.length ≥ c.max_size
  · rw [if_pos h]
    have h1 := purge_records_length_le c
    have h2 := List.length_filter_le (fun r => decide (r.key ≠ k)) c.purge.records
    rcases Nat.le_total c.max_size 3 with h4 | h4
    · rw [Nat.max_eq_right h4] at hlen ⊢
      omega
    · rw [Nat.max_eq_left h4] at hlen ⊢
      have hlen_eq : c.records.length = c.max_size := Nat.le_antisymm hlen h
      omega
  · rw [if_neg h]
    have h2 := List.length_filter_le (fun r => decide (r.key ≠ k)) c.records
    rcases Nat.le_total c.max_size 3 with h4 | h4
    · rw [Nat.max_eq_right h4] at hlen ⊢
      omega
    · rw [Nat.max_eq_left h4] at hlen ⊢
      omega

theorem get_preserves_length_max_size {T : Type} (c : Cache T) (k ts : Nat) :
    (c.get k ts).2.records.length = c.records.length ∧
    (c.get k ts).2.max_size = c.max_size := by
  cases hf : c.records.find? (fun r => decide (r.key = k)) with
  | none => simp [Cache.get, hf]
  | some r => simp [Cache.get, hf, length_updateTimestamp]

/-- C10: for every capacity — including 0, 1 and 2 — and every sequence of
puts and gets from the empty cache, the record count never exceeds
`max max_size 3`: once the size reaches 3, `purge` removes at least one
record before each capacity-triggered insertion. -/
theorem c10_size_never_exceeds_max_capacity_three {T : Type} (m : Nat)
    (ops : List (CacheOp T)) :
    (applyOps (Cache.new m : Cache T) ops).records.length ≤ max m 3 := by
  suffices h : ∀ (ops : List (CacheOp T)) (c : Cache T), c.max_size = m →
      c.records.length ≤ max m 3 → (applyOps c ops).records.length ≤ max m 3 by
    exact h ops (Cache.new m) rfl (Nat.zero_le _)
  intro ops
  induction ops with
  | nil => intro c _ hlen; exact hlen
  | cons op rest ih =>
    intro c hms hlen
    cases op with
    | put k v ts =>
      refine ih (c.put k v ts) (by rw [put_max_size, hms]) ?_
      have := put_records_length_le_max_three c k v ts (by rw [hms]; exact hlen)
      rw [hms] at this
      exact this
    | get k ts =>
      refine ih (c.get k ts).2 ?_ ?_
      · rw [(get_preserves_length_max_size c k ts).2, hms]
      · rw [(get_preserves_length_max_size c k ts).1]
        exact hlen

/-- In a list strictly sorted by timestamp, an element lies in the first
`n` positions exactly when fewer than `n` elements have a smaller
timestamp. -/
theorem mem_take_iff_rank_lt {T : Type} (s : List (CacheRecord T))
    (hs : s.Pairwise (fun a b => a.timestamp < b.timestamp)) (r : CacheRecord T)
    (hr : r ∈ s) (n : Nat) :
    r ∈ s.take n ↔ (s.filter (fun x => decide (x.timestamp < r.timestamp))).length < n := by
  induction s generalizing n with
  | nil => exact absurd hr (List.not_mem_nil r)
  | cons a t ih =>
    rw [List.pairwise_cons] at hs
    obtain ⟨ha, ht⟩ := hs
    rcases List.mem_cons.mp hr with h1 | h1
    · have hfilter : List.filter (fun x => decide (x.timestamp < r.timestamp)) (a :: t) = [] := by
        rw [List.filter_eq_nil_iff]
        intro x hx
        simp only [decide_eq_true_eq]
        rcases List.mem_cons.mp hx with h2 | h2
        · rw [h1, h2]
          omega
        · have := ha x h2
          rw [h1]
          omega
      rw [hfilter]
      cases n with
      | zero => simp
      | succ m =>
        simp only [List.take_succ_cons, List.length_nil]
        constructor
        · intro _
          omega
        · intro _
          rw [h1]
          exact List.mem_cons_self _ _
    · have halt : a.timestamp < r.timestamp := ha r h1
      have hfilter : List.filter (fun x => decide (x.timestamp < r.timestamp)) (a :: t) =
          a :: List.filter (fun x => decide (x.timestamp < r.timestamp)) t := by
        rw [List.filter_cons_of_pos]
        simp only [decide_eq_true_eq]
        exact halt
      rw [hfilter, List.length_cons]
      cases n with
      | zero => simp
      | succ m =>
        rw [List.take_succ_cons]
        constructor
        · intro hmem
          rcases List.mem_cons.mp hmem with h2 | h2
          · rw [h2] at halt
            exact absurd halt (lt_irrefl _)
          · have hx := (ih ht h1 m).mp h2
            omega
        · intro hlt
          exact List.mem_cons_of_mem _ ((ih ht h1 m).mpr (by omega))

/-- A filter keeping exactly the keys of the first `n` elements returns
the first `n` elements, provided nothing after position `n` carries such a
key. -/
theorem filter_key_mem_eq_take {T : Type} (s : List (CacheRecord T)) (n : Nat) (ks : List Nat)
    (htake : ∀ x ∈ s.take n, x.key ∈ ks) (hdrop : ∀ x ∈ s.drop n, ¬ x.key ∈ ks) :
    s.filter (fun r => decide (r.key ∈ ks)) = s.take n := by
  conv_lhs => rw [← List.take_append_drop n s]
  rw [List.filter_append, List.filter_eq_self.mpr (fun a ha => decide_eq_true (htake a ha)),
    List.filter_eq_nil_iff.mpr (fun a ha => by simpa using hdrop a ha), List.append_nil]

/-- `purge` on a cache whose records have pairwise distinct timestamps and
pairwise distinct keys removes exactly `⌊n/3⌋` records, and a record
survives exactly when at least `⌊n/3⌋` records have a smaller timestamp. -/
theorem purge_exact {T : Type} (c : Cache T)
    (hts : c.records.Pairwise (fun a b => a.timestamp ≠ b.timestamp))
    (hkeys : (c.records.map (fun r => r.key)).Nodup) :
    c.purge.records.length = c.records.length - c.records.length / 3 ∧
    ∀ r ∈ c.records, (r ∈ c.purge.records ↔ c.records.length / 3 ≤ tsRank c r) := by
  have hperm : List.Perm (List.insertionSort tsLE c.records) c.records :=
    List.perm_insertionSort tsLE c.records
  have hsorted : List.Pairwise tsLE (List.insertionSort tsLE c.records) :=
    List.sorted_insertionSort tsLE c.records
  have hne_s : (List.insertionSort tsLE c.records).Pairwise
      (fun a b => a.timestamp ≠ b.timestamp) :=
    (hperm.pairwise_iff (fun h => Ne.symm h)).mpr hts
  have hlt_s : (List.insertionSort tsLE c.records).Pairwise
      (fun a b => a.timestamp < b.timestamp) :=
    (List.Pairwise.and hsorted hne_s).imp (fun h => Nat.lt_of_le_of_ne h.1 h.2)
  have hl_nodup : c.records.Nodup := List.Nodup.of_map _ hkeys
  have hs_nodup : (List.insertionSort tsLE c.records).Nodup := hperm.nodup_iff.mpr hl_nodup
  have hkeys_s : ((List.insertionSort tsLE c.records).map (fun r => r.key)).Nodup :=
    ((hperm.map _).nodup_iff).mpr hkeys
  have hinj : ∀ x ∈ List.insertionSort tsLE c.records, ∀ y ∈ List.insertionSort tsLE c.records,
      x.key = y.key → x = y :=
    fun x hx y hy hxy => List.inj_on_of_nodup_map hkeys_s hx hy hxy
  have hdisj : ∀ z, z ∈ (List.insertionSort tsLE c.records).take (c.records.length * 1 / 3) →
      z ∈ (List.insertionSort tsLE c.records).drop (c.records.length * 1 / 3) → False := by
    have h0 : (((List.insertionSort tsLE c.records).take (c.records.length * 1 / 3)) ++
        ((List.insertionSort tsLE c.records).drop (c.records.length * 1 / 3))).Nodup := by
      rw [List.take_append_drop]
      exact hs_nodup
    exact fun z hz1 hz2 => (List.nodup_append.mp h0).2.2 hz1 hz2
  have hnotin_take : ∀ r, r ∈ List.insertionSort tsLE c.records →
      ¬ r ∈ (List.insertionSort tsLE c.records).take (c.records.length * 1 / 3) →
      ¬ r.key ∈ ((List.insertionSort tsLE c.records).take
        (c.records.length * 1 / 3)).map (fun r => r.key) := by
    intro r hr hnot hmem
    obtain ⟨y, hy, hyk⟩ := List.mem_map.mp hmem
    have hy_s : y ∈ List.insertionSort tsLE c.records :=
      (List.take_sublist _ _).subset hy
    have : y = r := hinj y hy_s r hr hyk
    exact hnot (this ▸ hy)
  have hdrop_none : ∀ x ∈ (List.insertionSort tsLE c.records).drop (c.records.length * 1 / 3),
      ¬ (decide (x.key ∈ ((List.insertionSort tsLE c.records).take
        (c.records.length * 1 / 3)).map (fun r => r.key)) = true) := by
    intro x hx
    simp only [decide_eq_true_eq]
    intro hmem
    obtain ⟨y, hy, hyk⟩ := List.mem_map.mp hmem
    have hx_s : x ∈ List.insertionSort tsLE c.records :=
      (List.drop_sublist _ _).subset hx
    have hy_s : y ∈ List.insertionSort tsLE c.records :=
      (List.take_sublist _ _).subset hy
    have : y = x := hinj y hy_s x hx_s hyk
    exact hdisj x (this ▸ hy) hx
  have hfs : (List.insertionSort tsLE c.records).filter (fun r =>
      decide (r.key ∈ ((List.insertionSort tsLE c.records).take
        (c.records.length * 1 / 3)).map (fun r => r.key))) =
      (List.insertionSort tsLE c.records).take (c.records.length * 1 / 3) :=
    filter_key_mem_eq_take (List.insertionSort tsLE c.records) (c.records.length * 1 / 3) _
      (fun a ha => List.mem_map_of_mem _ ha)
      (fun a ha => by simpa using hdrop_none a ha)
  have htake_len : ((List.insertionSort tsLE c.records).take
      (c.records.length * 1 / 3)).length = c.records.length * 1 / 3 := by
    rw [List.length_take, hperm.length_eq]
    exact Nat.min_eq_left (by omega)
  have hqlen : (c.records.filter (fun r =>
      decide (r.key ∈ ((List.insertionSort tsLE c.records).take
        (c.records.length * 1 / 3)).map (fun r => r.key)))).length =
      c.records.length * 1 / 3 := by
    have h0 := (hperm.filter (fun r =>
      decide (r.key ∈ ((List.insertionSort tsLE c.records).take
        (c.records.length * 1 / 3)).map (fun r => r.key)))).length_eq
    rw [hfs, htake_len] at h0
    exact h0.symm
  have hsplit := length_filter_add_length_filter_not c.records (fun r =>
    decide (r.key ∈ ((List.insertionSort tsLE c.records).take
      (c.records.length * 1 / 3)).map (fun r => r.key)))
  have hpurge_eq : c.purge.records = c.records.filter (fun r =>
      !(decide (r.key ∈ ((List.insertionSort tsLE c.records).take
        (c.records.length * 1 / 3)).map (fun r => r.key)))) := by
    rw [purge_records_eq]
    simp only [decide_not]
  constructor
  · rw [hpurge_eq]
    omega
  · intro r hr
    have hr_s : r ∈ List.insertionSort tsLE c.records := hperm.mem_iff.mpr hr
    have hrank : tsRank c r = ((List.insertionSort tsLE c.records).filter
        (fun x => decide (x.timestamp < r.timestamp))).length := by
      unfold tsRank
      exact ((hperm.filter (fun x => decide (x.timestamp < r.timestamp))).length_eq).symm
    have hiff := mem_take_iff_rank_lt (List.insertionSort tsLE c.records) hlt_s r hr_s
      (c.records.length * 1 / 3)
    rw [hpurge_eq, List.mem_filter]
    constructor
    · intro hmem
      obtain ⟨_, hq⟩ := hmem
      simp only [Bool.not_eq_true', decide_eq_false_iff_not] at hq
      by_contra hcon
      push_neg at hcon
      have : r ∈ (List.insertionSort tsLE c.records).take (c.records.length * 1 / 3) :=
        hiff.mpr (by omega)
      exact hq (List.mem_map_of_mem _ this)
    · intro hge
      refine ⟨hr, ?_⟩
      simp only [Bool.not_eq_true', decide_eq_false_iff_not]
      have hnot : ¬ r ∈ (List.insertionSort tsLE c.records).take (c.records.length * 1 / 3) := by
        intro hmem
        have := hiff.mp hmem
        omega
      exact hnotin_take r hr_s hnot

/-- C3: on any cache state with pairwise distinct timestamps (and distinct
keys, as every reachable map state has), `purge` removes exactly
`⌊n/3⌋` records, namely those with the smallest timestamps: a record
survives exactly when at least `⌊n/3⌋` records have a smaller timestamp,
so every record with a larger timestamp than the removed ones stays.
Concretely: capacity 7, keys 1..7 at increasing timestamps, key 1 touched
via `get`, then key 8 inserted, leaves exactly keys 1, 4, 5, 6, 7, 8
present — 2 and 3 are evicted. -/
theorem c3_purge_evicts_exactly_oldest_third {T : Type} (c : Cache T)
    (hts : c.records.Pairwise (fun a b => a.timestamp ≠ b.timestamp))
    (hkeys : (c.records.map (fun r => r.key)).Nodup) :
    (c.purge.records.length = c.records.length - c.records.length / 3 ∧
      ∀ r ∈ c.records, (r ∈ c.purge.records ↔ c.records.length / 3 ≤ tsRank c r)) ∧
    c3Scenario.records.map (fun r => r.key) = [1, 4, 5, 6, 7, 8] :=
  ⟨purge_exact c hts hkeys, by decide⟩

/-- Witness for C3 at a three-record cache with distinct timestamps and
keys: one record is purged, and record ⟨3, 0, 30⟩ survives because two
records have smaller timestamps. -/
theorem c3_purge_evicts_exactly_oldest_third_witness :
    (⟨3, [⟨1, 0, 10⟩, ⟨2, 0, 20⟩, ⟨3, 0, 30⟩]⟩ : Cache Nat).purge.records.length =
      (⟨3, [⟨1, 0, 10⟩, ⟨2, 0, 20⟩, ⟨3, 0, 30⟩]⟩ : Cache Nat).records.length -
        (⟨3, [⟨1, 0, 10⟩, ⟨2, 0, 20⟩, ⟨3, 0, 30⟩]⟩ : Cache Nat).records.length / 3 ∧
    ((⟨3, 0, 30⟩ : CacheRecord Nat) ∈
        (⟨3, [⟨1, 0, 10⟩, ⟨2, 0, 20⟩, ⟨3, 0, 30⟩]⟩ : Cache Nat).purge.records ↔
      (⟨3, [⟨1, 0, 10⟩, ⟨2, 0, 20⟩, ⟨3, 0, 30⟩]⟩ : Cache Nat).records.length / 3 ≤
        tsRank (⟨3, [⟨1, 0, 10⟩, ⟨2, 0, 20⟩, ⟨3, 0, 30⟩]⟩ : Cache Nat) ⟨3, 0, 30⟩) :=
  ⟨(c3_purge_evicts_exactly_oldest_third (⟨3, [⟨1, 0, 10⟩, ⟨2, 0, 20⟩, ⟨3, 0, 30⟩]⟩ : Cache Nat)
      (by decide) (by decide)).1.1,
   (c3_purge_evicts_exactly_oldest_third (⟨3, [⟨1, 0, 10⟩, ⟨2, 0, 20⟩, ⟨3, 0, 30⟩]⟩ : Cache Nat)
      (by decide) (by decide)).1.2 ⟨3, 0, 30⟩ (by decide)⟩
